import Mathlib

/-! Shallow embedding of the news_bot dedup-and-dispatch pipeline
(`src/news_core.py`, together with the `src/news_push_bot.py` variants where
the two files differ), and theorems checking the specification's claims
against it.  Python strings are modelled as `List Char` (sequences of
Unicode code points) or as Lean `String`; file-system, network and
Telegram-API effects are modelled by passing the fetched or parsed payloads
as explicit arguments, with `Except Unit` marking operations whose Python
original can raise an exception. -/

namespace NewsBot

/-- Python text modelled as a list of Unicode code points. -/
abbrev Str := List Char

/-- Modelled from the Python standard library: the characters removed by
`str.strip()` (Python's notion of whitespace: ASCII whitespace, the C0/C1
separator controls, and the Unicode space separators). -/
def isPySpace (c : Char) : Bool :=
  c.val = 0x20 || c.val = 0x09 || c.val = 0x0a || c.val = 0x0d ||
  c.val = 0x0b || c.val = 0x0c ||
  c.val = 0x1c || c.val = 0x1d || c.val = 0x1e || c.val = 0x1f ||
  c.val = 0x85 || c.val = 0xa0 || c.val = 0x1680 ||
  (0x2000 ≤ c.val && c.val ≤ 0x200a) ||
  c.val = 0x2028 || c.val = 0x2029 || c.val = 0x202f ||
  c.val = 0x205f || c.val = 0x3000

/-- Modelled from the Python standard library: `str.strip()` with no
argument, removing leading and trailing whitespace. -/
def pyStrip (s : Str) : Str :=
  ((s.dropWhile isPySpace).reverse.dropWhile isPySpace).reverse

/-- `str.strip()` on a Lean `String`. -/
def pyStripS (s : String) : String := String.mk (pyStrip s.data)

/-- Modelled from the Python standard library: `s.split("\n\n")` —
splitting on non-overlapping occurrences of a blank line, scanned left to
right.  `acc` holds the reversed current fragment. -/
def splitParasGo (acc : Str) : Str → List Str
  | [] => [acc.reverse]
  | '\n' :: '\n' :: rest => acc.reverse :: splitParasGo [] rest
  | c :: rest => splitParasGo (c :: acc) rest

/-- `s.split("\n\n")` as used by `chunk_text` (news_core.py line 412). -/
def splitParas (s : Str) : List Str := splitParasGo [] s

/-- The hard-split `while` loop of `chunk_text` (news_core.py lines
423-426): slice `p` into consecutive pieces `p[start:start+limit]`.  The
actual slice width is `lp + 1`, so the function is total for every
argument; `chunk_text` calls it with `lp = limit - 1` for `limit ≥ 1`.
The `fuel` argument bounds the recursion and is set to `p.length` by
`hardSplit`; it makes the definition structurally recursive and hence
evaluable by kernel reduction. -/
def hardSplitAux (lp : Nat) : Nat → Str → List Str
  | 0, _ => []
  | _ + 1, [] => []
  | fuel + 1, c :: rest => ((c :: rest).take (lp + 1)) :: hardSplitAux lp fuel (rest.drop lp)

/-- Slicing an oversized paragraph into width-`lp + 1` pieces. -/
def hardSplit (lp : Nat) (p : Str) : List Str := hardSplitAux lp p.length p

/-- The `for p in paras` loop of `chunk_text` (news_core.py lines 415-437),
including the final `if cur: chunks.append(cur)`.  `limit` is the positive
split length, `cur` the chunk being accumulated, `chunks` the output so
far.  The Python rebinding `p = p.strip()` is written as the inline
`pyStrip p0`, and `candidate = (cur + ("\n\n" if cur else "") + p).strip()`
appears inline in the third branch. -/
def chunkLoop (limit : Nat) : List Str → Str → List Str → List Str
  | [], cur, chunks => if cur = [] then chunks else chunks ++ [cur]
  | p0 :: rest, cur, chunks =>
    if pyStrip p0 = [] then chunkLoop limit rest cur chunks
    else if limit < (pyStrip p0).length then
      chunkLoop limit rest []
        ((if cur = [] then chunks else chunks ++ [cur]) ++ hardSplit (limit - 1) (pyStrip p0))
    else
      if (pyStrip (cur ++ (if cur = [] then [] else ['\n', '\n']) ++ pyStrip p0)).length ≤ limit then
        chunkLoop limit rest (pyStrip (cur ++ (if cur = [] then [] else ['\n', '\n']) ++ pyStrip p0)) chunks
      else chunkLoop limit rest (pyStrip p0) (if cur = [] then chunks else chunks ++ [cur])

/-- `chunk_text` (news_core.py lines 407-437): split `s` into segments of
at most `limit` characters, preferring paragraph boundaries; non-positive
`limit` means no splitting. -/
def chunk_text (s : Str) (limit : Int) : List Str :=
  if limit ≤ 0 then [s]
  else if (s.length : Int) ≤ limit then [s]
  else chunkLoop limit.toNat (splitParas s) [] []

/-! The Item model (news_core.py lines 95-101) and chronological ordering
(news_core.py lines 274-297). -/

/-- One normalized news entry (news_core.py `Item`, lines 95-101). -/
structure Item where
  id : String
  title : String
  link : String
  date_text : String
  date_iso : String
deriving DecidableEq, Repr

/-- Decimal-digit test for the date parser (ASCII `0`-`9`, as accepted by
`datetime.fromisoformat`). -/
def isDig (c : Char) : Bool := c.isDigit

/-- Value of one decimal digit. -/
def digVal (c : Char) : Nat := c.toNat - 48

/-- Value of a two-digit group. -/
def dig2 (a b : Char) : Nat := 10 * digVal a + digVal b

/-- Value of a four-digit group. -/
def dig4 (a b c d : Char) : Nat :=
  1000 * digVal a + 100 * digVal b + 10 * digVal c + digVal d

/-- Modelled from the Python standard library: Gregorian leap-year rule of
the `datetime` module. -/
def isLeapYear (y : Nat) : Bool := y % 4 = 0 && (y % 100 ≠ 0 || y % 400 = 0)

/-- Modelled from the Python standard library: days in month `m` of year
`y` (`datetime` validation). -/
def daysInMonth (y m : Nat) : Nat :=
  if m = 2 then (if isLeapYear y then 29 else 28)
  else if m = 4 ∨ m = 6 ∨ m = 9 ∨ m = 11 then 30
  else 31

/-- Days in the months of year `y` strictly before month `m`. -/
def daysBeforeMonth (y m : Nat) : Nat :=
  (List.range (m - 1)).foldl (fun acc i => acc + daysInMonth y (i + 1)) 0

/-- Days in the proleptic Gregorian calendar strictly before January 1 of
year `y` (counting from year 1, the `datetime.min` year). -/
def daysBeforeYear (y : Nat) : Nat :=
  365 * (y - 1) + ((y - 1) / 4 + (y - 1) / 400 - (y - 1) / 100)

/-- A naive datetime encoded as microseconds since `datetime.min`
(0001-01-01 00:00:00).  The encoding is strictly monotone in the
lexicographic field order, so comparisons of encodings agree with Python's
`datetime` comparisons. -/
def encodeDT (y mo d hh mi ss us : Nat) : Nat :=
  ((((daysBeforeYear y + daysBeforeMonth y mo + (d - 1)) * 24 + hh) * 60 + mi) * 60 + ss)
    * 1000000 + us

/-- Encoding of `datetime.max` (9999-12-31 23:59:59.999999). -/
def dtMaxEnc : Nat := encodeDT 9999 12 31 23 59 59 999999

/-- Modelled from the Python standard library: the timezone suffix accepted
by `datetime.fromisoformat` — empty (naive), `Z`/`z`, or `±HH:MM[:SS]`
with an offset strictly below 24 hours; yields the offset in seconds, or
`none` inside `some` for a naive datetime, failing with outer `none`. -/
def parseOff : Str → Option (Option Int)
  | [] => some none
  | ['Z'] => some (some 0)
  | ['z'] => some (some 0)
  | sign :: h1 :: h2 :: ':' :: m1 :: m2 :: rest =>
    if (sign = '+' ∨ sign = '-') ∧ isDig h1 ∧ isDig h2 ∧ isDig m1 ∧ isDig m2 ∧
        dig2 h1 h2 ≤ 23 ∧ dig2 m1 m2 ≤ 59 then
      match rest with
      | [] =>
        some (some ((if sign = '-' then -1 else 1) *
          ((dig2 h1 h2 * 3600 + dig2 m1 m2 * 60 : Nat) : Int)))
      | ':' :: s1 :: s2 :: [] =>
        if isDig s1 ∧ isDig s2 ∧ dig2 s1 s2 ≤ 59 then
          some (some ((if sign = '-' then -1 else 1) *
            ((dig2 h1 h2 * 3600 + dig2 m1 m2 * 60 + dig2 s1 s2 : Nat) : Int)))
        else none
      | _ => none
    else none
  | _ => none

/-- Modelled from the Python standard library: optional fractional-seconds
group of `datetime.fromisoformat` (`.` plus one to six digits, scaled to
microseconds) followed by the timezone suffix. -/
def parseFracOff (s : Str) : Option (Nat × Option Int) :=
  match s with
  | '.' :: rest =>
    if (rest.takeWhile isDig).length = 0 ∨ 6 < (rest.takeWhile isDig).length then none
    else
      (parseOff (rest.dropWhile isDig)).map (fun o =>
        (((rest.takeWhile isDig).foldl (fun a c => 10 * a + digVal c) 0) *
          10 ^ (6 - (rest.takeWhile isDig).length), o))
  | s => (parseOff s).map (fun o => (0, o))

/-- Modelled from the Python standard library: the time-of-day part of
`datetime.fromisoformat` — empty, or a separator (`T`, `t` or a space)
followed by `HH[:MM[:SS[.ffffff]]]` and the timezone suffix.  Yields
`(hh, mi, ss, us, offset)`. -/
def parseTime : Str → Option (Nat × Nat × Nat × Nat × Option Int)
  | [] => some (0, 0, 0, 0, none)
  | sep :: rest =>
    if sep = 'T' ∨ sep = 't' ∨ sep = ' ' then
      match rest with
      | h1 :: h2 :: rest2 =>
        if isDig h1 ∧ isDig h2 ∧ dig2 h1 h2 ≤ 23 then
          match rest2 with
          | ':' :: m1 :: m2 :: rest3 =>
            if isDig m1 ∧ isDig m2 ∧ dig2 m1 m2 ≤ 59 then
              match rest3 with
              | ':' :: s1 :: s2 :: rest4 =>
                if isDig s1 ∧ isDig s2 ∧ dig2 s1 s2 ≤ 59 then
                  (parseFracOff rest4).map (fun p =>
                    (dig2 h1 h2, dig2 m1 m2, dig2 s1 s2, p.1, p.2))
                else none
              | rest4 =>
                (parseOff rest4).map (fun o => (dig2 h1 h2, dig2 m1 m2, 0, 0, o))
            else none
          | rest3 => (parseOff rest3).map (fun o => (dig2 h1 h2, 0, 0, 0, o))
        else none
      | _ => none
    else none

/-- Modelled from the Python standard library: `datetime.fromisoformat` on
the extended ISO-8601 format `YYYY-MM-DD[sep HH[:MM[:SS[.ffffff]]]][tz]`
(the compressed basic format without separators is not modelled; the feeds
only produce the extended one).  Returns the encoded naive datetime and
the optional timezone offset in seconds, validating all field ranges as
`datetime` does. -/
def fromIso (s : Str) : Option (Nat × Option Int) :=
  match s with
  | y1 :: y2 :: y3 :: y4 :: '-' :: m1 :: m2 :: '-' :: d1 :: d2 :: rest =>
    if isDig y1 ∧ isDig y2 ∧ isDig y3 ∧ isDig y4 ∧ isDig m1 ∧ isDig m2 ∧
        isDig d1 ∧ isDig d2 ∧ 1 ≤ dig4 y1 y2 y3 y4 ∧
        1 ≤ dig2 m1 m2 ∧ dig2 m1 m2 ≤ 12 ∧ 1 ≤ dig2 d1 d2 ∧
        dig2 d1 d2 ≤ daysInMonth (dig4 y1 y2 y3 y4) (dig2 m1 m2) then
      (parseTime rest).map (fun t =>
        (encodeDT (dig4 y1 y2 y3 y4) (dig2 m1 m2) (dig2 d1 d2) t.1 t.2.1 t.2.2.1 t.2.2.2.1,
          t.2.2.2.2))
    else none
  | _ => none

/-- The `s.endswith("Z")` substitution of `parse_iso` (news_core.py lines
284-285): replace a trailing capital `Z` by `+00:00`. -/
def zSubst (s : Str) : Str :=
  if s.getLast? = some 'Z' then s.dropLast ++ ['+', '0', '0', ':', '0', '0'] else s

/-- `parse_iso` (news_core.py lines 280-292): parse an ISO date string,
mapping a trailing `Z` to `+00:00`, converting an aware datetime to naive
UTC (with `None` on overflow, which the `except` turns into `None`), and
returning `None` on any parse failure.  The resulting datetime is encoded
as microseconds since `datetime.min`. -/
def parse_iso (dt_iso : String) : Option Int :=
  if dt_iso = "" then none
  else
    match fromIso (zSubst (pyStrip dt_iso.data)) with
    | none => none
    | some (enc, none) => some (enc : Int)
    | some (enc, some off) =>
      if (enc : Int) - off * 1000000 < 0 ∨ (dtMaxEnc : Int) < (enc : Int) - off * 1000000
      then none
      else some ((enc : Int) - off * 1000000)

/-- `parse_dt_key` (news_core.py lines 295-297): the sort key
`(dt or datetime.min, it.link)`; an unparsable or absent date becomes
`datetime.min`, whose encoding is `0`. -/
def parse_dt_key (it : Item) : Int × Str := ((parse_iso it.date_iso).getD 0, it.link.data)

/-- Modelled from the Python standard library: `≤` on strings as Python
compares them — lexicographically by code point. -/
def strLeB : Str → Str → Bool
  | [], _ => true
  | _ :: _, [] => false
  | a :: as, b :: bs =>
    if a.toNat < b.toNat then true
    else if b.toNat < a.toNat then false
    else strLeB as bs

/-- Python's `≤` on `(datetime, str)` sort keys: lexicographic on the
pair. -/
def keyLeB (a b : Int × Str) : Bool :=
  decide (a.1 < b.1) || (decide (a.1 = b.1) && strLeB a.2 b.2)

/-- The comparison underlying `sorted(new_items, key=parse_dt_key)`
(news_core.py line 570). -/
def ItemLe (x y : Item) : Prop := keyLeB (parse_dt_key x) (parse_dt_key y) = true

instance : DecidableRel ItemLe := fun x y =>
  inferInstanceAs (Decidable (keyLeB (parse_dt_key x) (parse_dt_key y) = true))

/-- `sorted(new_items, key=parse_dt_key)` (news_core.py line 570): sort
the new items by `(parsed date or minimum, link)` ascending. -/
def sortItems (l : List Item) : List Item := l.insertionSort ItemLe

/-! A JSON/YAML document model, and the persisted Dedup Store
(news_core.py lines 117-135, news_push_bot.py lines 76-95). -/

/-- A JSON (or YAML, for the feed configuration) document.  `num` covers
the integer values the pipeline meets. -/
inductive Json where
  | null
  | bool (b : Bool)
  | num (n : Int)
  | str (s : String)
  | arr (xs : List Json)
  | obj (fields : List (String × Json))
deriving BEq, Repr

/-- First-match association-list lookup: Python `dict` access on a parsed
JSON object (parsed objects have unique keys, so first-match agrees with
`dict`). -/
def lookupJ : List (String × Json) → String → Option Json
  | [], _ => none
  | (k', v) :: rest, k => if k' = k then some v else lookupJ rest k

/-- Modelled from the Python standard library: `dict.get(k)` with a `None`
default. -/
def jGet (fields : List (String × Json)) (k : String) : Json :=
  (lookupJ fields k).getD Json.null

/-- Modelled from the Python standard library: truth value of a JSON
value (`bool(x)`). -/
def pyTruthy : Json → Bool
  | Json.null => false
  | Json.bool b => b
  | Json.num n => decide (n ≠ 0)
  | Json.str s => decide (s ≠ "")
  | Json.arr xs => !xs.isEmpty
  | Json.obj fs => !fs.isEmpty

/-- Modelled from the Python standard library: the value of `a or b`
(the left operand when truthy, else the right one). -/
def pyOr (a b : Json) : Json := if pyTruthy a then a else b

/-- Modelled from the Python standard library: `str(x)` on the values this
pipeline converts.  Atoms render exactly as Python renders them; the
container cases (never produced by the feeds for the converted fields) are
abbreviated rather than rendered with Python's nested `repr`. -/
def pyStr : Json → String
  | Json.null => "None"
  | Json.bool b => if b then "True" else "False"
  | Json.num n => toString n
  | Json.str s => s
  | Json.arr _ => "<list>"
  | Json.obj _ => "<dict>"

/-- Modelled from the Python standard library: iterating a value with
`for i in v` — a list yields its elements, a string its one-character
substrings, a dict its keys; other values raise `TypeError` (`none`). -/
def pyIter : Json → Option (List Json)
  | Json.arr xs => some xs
  | Json.str s => some (s.data.map (fun c => Json.str (String.mk [c])))
  | Json.obj fs => some (fs.map (fun p => Json.str p.1))
  | _ => none

/-- The in-memory Dedup Store: feed key to list of seen item ids
(`Dict[str, List[str]]`). -/
abbrev SeenMap := List (String × List String)

/-- Python's `≤` on strings, comparing code points. -/
def StrLe (a b : String) : Prop := strLeB a.data b.data = true

instance : DecidableRel StrLe := fun a b =>
  inferInstanceAs (Decidable (strLeB a.data b.data = true))

/-- Modelled from the Python standard library: `sorted(set(v))` — the
ascending duplicate-free version of `v`.  Any implementation producing the
sorted deduplicated list is extensionally equal to Python's. -/
def pySortedSet (v : List String) : List String := (v.dedup).insertionSort StrLe

/-- `[str(i) for i in v]` under `pyIter`, failing when `v` is not
iterable. -/
def strListOf (v : Json) : Option (List String) := (pyIter v).map (·.map pyStr)

/-- The dict comprehension of news_core.py line 123 over the `feeds`
object: convert every value with `strListOf`, raising (`none`) if any
value is not iterable. -/
def feedsMapOf : List (String × Json) → Option SeenMap
  | [] => some []
  | (k, v) :: rest =>
    match strListOf v, feedsMapOf rest with
    | some l, some m => some ((k, l) :: m)
    | _, _ => none

/-- `load_seen` (news_core.py lines 117-127): read the Dedup Store from
the parsed `seen.json` document (`none` models a missing or unparsable
file, whose exception yields `{}`).  A dict with a dict-valued `feeds` key
is read through `feedsMapOf` (an exception inside the comprehension is
caught, yielding `{}`); any other dict keeps exactly its list-valued
entries; anything else yields `{}`. -/
def load_seen : Option Json → SeenMap
  | some (Json.obj fields) =>
    match lookupJ fields "feeds" with
    | some (Json.obj ff) => (feedsMapOf ff).getD []
    | _ =>
      fields.filterMap (fun p =>
        match p.2 with
        | Json.arr xs => some (p.1, xs.map pyStr)
        | _ => none)
  | _ => []

/-- `save_seen` (news_core.py lines 130-135): the JSON document written to
`seen.json` — the mapping itself at top level, each value replaced by
`sorted(set(v))`. -/
def save_seen (mapper : SeenMap) : Json :=
  Json.obj (mapper.map (fun p => (p.1, Json.arr ((pySortedSet p.2).map Json.str))))

/-- `save_seen` (news_push_bot.py lines 92-95): the same mapping wrapped
in a top-level `feeds` object. -/
def save_seen_bot (mapper : SeenMap) : Json :=
  Json.obj [("feeds",
    Json.obj (mapper.map (fun p => (p.1, Json.arr ((pySortedSet p.2).map Json.str)))))]

/-- Top-level field names of a JSON object. -/
def jsonKeys : Json → List String
  | Json.obj fs => fs.map Prod.fst
  | _ => []

/-- Fields of a JSON object (empty for other values). -/
def objFields : Json → List (String × Json)
  | Json.obj fs => fs
  | _ => []

/-! The Feed model and the dispatch cycle (news_core.py lines 104-114 and
538-591). -/

/-- One configured feed (news_core.py `Feed`, lines 104-114).  `template`
holds the raw configured value (`ent.get("template")` stores it without
conversion). -/
structure Feed where
  key : String
  type : String
  url : String
  chat_id : Option String := none
  template : Option Json := none
  parse_mode : String := "HTML"
  resolve : Bool := false
  fulltext : Bool := false
  split_len : Int := 3500
deriving BEq, Repr

/-- First-match lookup in the seen map (`seen_map.get(key)`). -/
def lookupSeen : SeenMap → String → Option (List String)
  | [], _ => none
  | (k', v) :: rest, k => if k' = k then some v else lookupSeen rest k

/-- Key assignment in the seen map (`seen_map[key] = v`): replace the
binding when the key is present, else append it. -/
def updateSeen : SeenMap → String → List String → SeenMap
  | [], k, v => [(k, v)]
  | (k', v') :: rest, k, v =>
    if k' = k then (k, v) :: rest
    else (k', v') :: updateSeen rest k v

/-- The Eleven volume cap of run_once_multi (news_core.py lines 551-553):
only the latest 5 items are considered for an `eleven` feed; the
specification documents this cap as part of that adapter's contract. -/
def consideredItems (f : Feed) (items : List Item) : List Item :=
  if f.type = "eleven" ∧ items ≠ [] then items.take 5 else items

/-- The per-item send loop of run_once_multi (news_core.py lines 572-580):
each item is attempted (`sendOk` gives the outcome of the try/except
around the send — the exception is caught and only logged) and its id is
then added to the `sent_ids` set unconditionally.  Returns the attempt log
`(key, item, outcome)` in order, and the final id set (as an
insertion-ordered duplicate-free list). -/
def dispatchItems (sendOk : Item → Bool) (key : String) :
    List Item → List String → List (String × Item × Bool) × List String
  | [], ids => ([], ids)
  | it :: rest, ids =>
    let step := dispatchItems sendOk key rest
      (if ids.contains it.id then ids else ids ++ [it.id])
    ((key, it, sendOk it) :: step.1, step.2)

/-- The per-feed body of run_once_multi (news_core.py lines 543-583):
fetch (an `error` models the belt-and-suspenders `except` around the
adapter call, which logs and continues), apply the Eleven cap, skip when
nothing was fetched, filter out already-seen ids, skip when nothing is
new, else dispatch the new items oldest-first and store the enlarged id
set for the feed's key (`save_seen` is called on the resulting map). -/
def processFeed (seen : SeenMap) (f : Feed) (fetched : Except Unit (List Item))
    (sendOk : Item → Bool) : SeenMap × List (String × Item × Bool) :=
  match fetched with
  | .error _ => (seen, [])
  | .ok items0 =>
    let items := consideredItems f items0
    if items = [] then (seen, [])
    else
      let sentIds := (lookupSeen seen f.key).getD []
      let newItems := items.filter (fun it => decide (it.id ∉ sentIds))
      if newItems = [] then (seen, [])
      else
        let disp := dispatchItems sendOk f.key (sortItems newItems) sentIds
        (updateSeen seen f.key (pySortedSet disp.2), disp.1)

/-- One feed's inputs in a pass: its configuration, the adapter outcome,
and the send outcomes. -/
structure FeedRun where
  feed : Feed
  fetched : Except Unit (List Item)
  sendOk : Item → Bool

/-- One full pass of run_once_multi over the configured feeds, threading
the seen map (persisted after each feed) and concatenating the attempt
logs. -/
def runCycle (seen : SeenMap) : List FeedRun → SeenMap × List (String × Item × Bool)
  | [] => (seen, [])
  | fr :: rest =>
    let step := processFeed seen fr.feed fr.fetched fr.sendOk
    let next := runCycle step.1 rest
    (next.1, step.2 ++ next.2)

/-- Repeated passes of the poll loop (news_core.py lines 586-591): each
pass starts from the store the previous one persisted.  Returns the final
store and one attempt log per pass. -/
def runCycles (seen : SeenMap) :
    List (List FeedRun) → SeenMap × List (List (String × Item × Bool))
  | [] => (seen, [])
  | c :: cs =>
    let step := runCycle seen c
    let next := runCycles step.1 cs
    (next.1, step.2 :: next.2)

/-! Source adapters (news_core.py lines 138-239 and 511-535). -/

/-- Modelled from the Python standard library: `\w` of the `re` module
under `re.I` for the repertoire these feeds produce — ASCII alphanumerics
and underscore are word characters, and non-ASCII code points (the Burmese
letters of the titles) are treated as word characters. -/
def isWordChar (c : Char) : Bool := c.isAlphanum || c = '_' || decide (127 < c.toNat)

/-- Scanner for `LIVE_PAT = re.compile(r"\blive\b", re.I)` (news_core.py
line 69): a case-insensitive occurrence of `live` delimited by word
boundaries.  `prevIsWord` records whether the preceding character is a
word character. -/
def hasLiveWordGo (prevIsWord : Bool) : Str → Bool
  | c1 :: c2 :: c3 :: c4 :: rest =>
    if !prevIsWord && c1.toLower = 'l' && c2.toLower = 'i' && c3.toLower = 'v' &&
        c4.toLower = 'e' && (match rest with | [] => true | r :: _ => !isWordChar r) then
      true
    else hasLiveWordGo (isWordChar c1) (c2 :: c3 :: c4 :: rest)
  | _ => false

/-- `LIVE_PAT.search` of news_core.py line 69. -/
def hasLiveWord (s : Str) : Bool := hasLiveWordGo false s

/-- Substring test (`pat in s` for Python strings). -/
def containsSub (pat : Str) : Str → Bool
  | [] => decide (pat = [])
  | c :: rest => pat.isPrefixOf (c :: rest) || containsSub pat rest

/-- Scanner for the `live\b` alternative of news_push_bot.py line 25: a
case-insensitive `live` with only a trailing word boundary (the pattern
has no leading `\b`). -/
def hasLiveSuffixGo : Str → Bool
  | c1 :: c2 :: c3 :: c4 :: rest =>
    if c1.toLower = 'l' && c2.toLower = 'i' && c3.toLower = 'v' &&
        c4.toLower = 'e' && (match rest with | [] => true | r :: _ => !isWordChar r) then
      true
    else hasLiveSuffixGo (c2 :: c3 :: c4 :: rest)
  | _ => false

/-- `LIVE_PAT.search` of news_push_bot.py line 25: the Burmese
live-broadcast stem anywhere (its optional suffix group does not change
whether a match exists), or `live` with a trailing boundary. -/
def botLivePat (s : Str) : Bool :=
  containsSub "တိုက်ရိုက်".data s || hasLiveSuffixGo s

/-- One `li` entry of the parsed listing page as `fetch_list` sees it
(news_core.py lines 150-163): whether an `h3` is present, the `h3` text
after the hidden spans are decomposed (the code's `title` and `raw` are
both this text), the link already resolved by `urljoin` (empty when no
anchor or `href`), the `time` fields, and the `svg.first-promo` marker. -/
structure LiEntry where
  hasH3 : Bool
  title : String
  link : String
  dateText : String
  dateIso : String
  firstPromo : Bool
deriving BEq, Repr

/-- Modelled from the Python standard library: `str.lower()` over the
ASCII repertoire of URLs. -/
def lowerAscii (s : Str) : Str := s.map Char.toLower

/-- The per-entry body of `fetch_list` (news_core.py lines 150-169): skip
entries without `h3`, without title or link, and entries matching the
live-broadcast exclusions (`/live/` in the lowercased link, `LIVE_PAT` on
the text, or the first-promo marker). -/
def processLi (e : LiEntry) : Option Item :=
  if ¬ e.hasH3 then none
  else if e.title = "" ∨ e.link = "" then none
  else if containsSub "/live/".data (lowerAscii e.link.data) || hasLiveWord e.title.data
      || e.firstPromo then none
  else some ⟨e.link, e.title, e.link, e.dateText, e.dateIso⟩

/-- `fetch_list` (news_core.py lines 138-170) over the fetched page: a
network error (`error`) yields `[]`, a page without the listing container
(`ok none`) yields `[]`, else the entries are processed in order. -/
def fetch_list : Except Unit (Option (List LiEntry)) → List Item
  | .error _ => []
  | .ok none => []
  | .ok (some lis) => lis.filterMap processLi

/-- One feed entry as `feedparser` hands it to `fetch_rss`: every
`getattr(e, ..., "")` field already defaulted to the empty string. -/
structure RssEntry where
  id : String
  title : String
  link : String
  published : String
  updated : String
deriving BEq, Repr

/-- Modelled from the Python standard library: `a or b` on strings. -/
def strOr (a b : String) : String := if a = "" then b else a

/-- `fetch_rss` (news_core.py lines 173-191): a network or parse error
yields `[]`; entries without title or link are skipped; the id falls back
to the link and the date fields fall back published → updated → empty. -/
def fetch_rss : Except Unit (List RssEntry) → List Item
  | .error _ => []
  | .ok entries =>
    entries.filterMap (fun e =>
      if e.title = "" ∨ e.link = "" then none
      else some ⟨strOr e.id e.link, e.title, e.link,
        strOr e.published e.updated, strOr e.published e.updated⟩)

/-- `fetch_dvb` (news_core.py lines 511-535) over the decoded JSON
response: an error yields `[]`; a non-list document yields `[]`; non-dict
elements are skipped; title comes from `title.rendered` when `title` is a
dict, else from `str(title or "")`; entries with falsy title or empty link
are skipped. -/
def fetch_dvb : Except Unit Json → List Item
  | .error _ => []
  | .ok (Json.arr es) =>
    es.filterMap (fun e =>
      match e with
      | Json.obj fs =>
        if ¬ pyTruthy (match pyOr (jGet fs "title") (Json.obj []) with
            | Json.obj tfs => (lookupJ tfs "rendered").getD (Json.str "")
            | tobj => Json.str (pyStr (pyOr tobj (Json.str ""))))
            ∨ pyStr (pyOr (jGet fs "link") (Json.str "")) = "" then none
        else some ⟨pyStr (pyOr (jGet fs "link") (Json.str "")),
          pyStr (match pyOr (jGet fs "title") (Json.obj []) with
            | Json.obj tfs => (lookupJ tfs "rendered").getD (Json.str "")
            | tobj => Json.str (pyStr (pyOr tobj (Json.str "")))),
          pyStr (pyOr (jGet fs "link") (Json.str "")),
          pyStr (pyOr (jGet fs "date") (Json.str "")),
          pyStr (pyOr (jGet fs "date") (Json.str ""))⟩
      | _ => none)
  | .ok _ => []

/-- One anchor of the News Eleven listing page, in the order the
CSS-selector strategies of `fetch_eleven` accumulate them (news_core.py
lines 205-216): the `href` attribute (`none` when absent or not a
string), the anchor text, the `title` attribute and an inner image's
`alt`. -/
structure ElevenAnchor where
  href : Option String
  text : String
  titleAttr : Option String
  imgAlt : Option String
deriving BEq, Repr

/-- The image-`alt` title fallback of `fetch_eleven` (news_core.py lines
226-231). -/
def elevAlt : Option String → String
  | none => ""
  | some alt => if pyStripS alt = "" then "" else pyStripS alt

/-- The accumulation loop of `fetch_eleven` (news_core.py lines 213-236):
skip anchors without a usable `href`, de-duplicate by link (`urljoin` is
modelled as the identity: the matched hrefs are site-absolute), derive the
title from text, `title` attribute, then image `alt`, and skip entries
left without a title. -/
def elevenLoop : List ElevenAnchor → List String → List Item → List Item
  | [], _, out => out
  | a :: rest, seenL, out =>
    match a.href with
    | none => elevenLoop rest seenL out
    | some h =>
      if pyStripS h = "" then elevenLoop rest seenL out
      else if seenL.contains h then elevenLoop rest seenL out
      else if strOr (strOr a.text (a.titleAttr.getD "")) (elevAlt a.imgAlt) = "" then
        elevenLoop rest seenL out
      else
        elevenLoop rest (seenL ++ [h])
          (out ++ [⟨h, strOr (strOr a.text (a.titleAttr.getD "")) (elevAlt a.imgAlt),
            h, "", ""⟩])

/-- `fetch_eleven` (news_core.py lines 194-239): any error yields `[]`. -/
def fetch_eleven : Except Unit (List ElevenAnchor) → List Item
  | .error _ => []
  | .ok anchors => elevenLoop anchors [] []

/-! Configuration loading (news_core.py lines 242-271). -/

/-- Modelled from the Python standard library: `int(s)` on a string —
strip whitespace, optional sign, decimal digits (digit-group underscores
are not modelled; the pipeline's configs do not use them). -/
def pyIntStr (s : String) : Option Int :=
  match pyStrip s.data with
  | [] => none
  | '+' :: ds =>
    if ds ≠ [] ∧ ds.all isDig then some ((ds.foldl (fun a c => 10 * a + digVal c) 0 : Nat) : Int)
    else none
  | '-' :: ds =>
    if ds ≠ [] ∧ ds.all isDig then some (-((ds.foldl (fun a c => 10 * a + digVal c) 0 : Nat) : Int))
    else none
  | ds =>
    if ds.all isDig then some ((ds.foldl (fun a c => 10 * a + digVal c) 0 : Nat) : Int)
    else none

/-- Modelled from the Python standard library: `int(x)` on a JSON value —
ints pass through, bools become 0/1, numeric strings parse, anything else
raises. -/
def pyIntConv : Json → Except Unit Int
  | Json.num n => .ok n
  | Json.bool b => .ok (if b then 1 else 0)
  | Json.str s =>
    match pyIntStr s with
    | some n => .ok n
    | none => .error ()
  | _ => .error ()

/-- Modelled from the Python standard library: `str.lower()` (ASCII; the
configured type names are ASCII). -/
def lowerS (s : String) : String := String.mk (s.data.map Char.toLower)

/-- The trailing `or None` of the chat-id conversion (news_core.py line
256). -/
def noneIfEmpty (s : String) : Option String := if s = "" then none else some s

/-- The per-entry body of `load_config` (news_core.py lines 250-264): a
non-dict entry is skipped (`ok none`), the field conversions run —
`int(ent.get("split_len") or 3500)` is the only one that can raise
(`error`), before the url check in the source — and an entry without a
url is skipped. -/
def parseEntry (default_chat : Option String) (ent : Json) : Except Unit (Option Feed) :=
  match ent with
  | Json.obj fields =>
    match pyIntConv (pyOr (jGet fields "split_len") (Json.num 3500)) with
    | .error e => .error e
    | .ok split_len =>
      if pyStripS (pyStr (pyOr (jGet fields "url") (Json.str ""))) = "" then .ok none
      else .ok (some {
        key := pyStr (pyOr (jGet fields "key")
          (pyOr (jGet fields "name") (pyOr (jGet fields "url") (Json.str "feed")))),
        type := lowerS (pyStr (pyOr (jGet fields "type") (Json.str "rss"))),
        url := pyStripS (pyStr (pyOr (jGet fields "url") (Json.str ""))),
        chat_id := noneIfEmpty (pyStr (pyOr (jGet fields "chat_id")
          (Json.str (default_chat.getD "")))),
        template := (match jGet fields "template" with
          | Json.null => none
          | v => some v),
        parse_mode := pyStr (pyOr (jGet fields "parse_mode") (Json.str "HTML")),
        resolve := pyTruthy (pyOr (jGet fields "resolve_canonical")
          (pyOr (jGet fields "resolve") (Json.bool false))),
        fulltext := pyTruthy (pyOr (jGet fields "fulltext") (Json.bool false)),
        split_len := split_len })
  | _ => .ok none

/-- The `for ent in entries` loop of `load_config` (news_core.py lines
250-264) under the `try` of lines 246-266: skipped entries leave the
accumulator unchanged, parsed entries are appended, and the first raising
entry aborts the loop keeping the feeds accumulated so far (its exception
is caught outside the loop). -/
def loadLoop (dc : Option String) : List Json → List Feed → List Feed
  | [], acc => acc
  | ent :: rest, acc =>
    match parseEntry dc ent with
    | .ok none => loadLoop dc rest acc
    | .ok (some f) => loadLoop dc rest (acc ++ [f])
    | .error _ => acc

/-- The hard-coded fallback feed set of `load_config` (news_core.py lines
269-271). -/
def defaultFeeds (dc : Option String) : List Feed :=
  [{ key := "bbc_burmese", type := "bbc", url := "https://www.bbc.com/burmese.lite",
      chat_id := dc, template := none, parse_mode := "HTML" },
    { key := "myanmarnow", type := "rss", url := "https://myanmar-now.org/mm/feed/",
      chat_id := dc, template := none, parse_mode := "HTML", resolve := true,
      fulltext := true }]

/-- `load_config` (news_core.py lines 242-271) over the parsed
`feeds.yaml` document (`none` models a missing file or a YAML parse
error; both leave `feeds` empty).  `yaml.safe_load(f) or {}` is the
`pyOr`; `data.get("feeds", [])` requires a dict; iterating a non-iterable
`feeds` value raises into the outer `except`; an empty result falls back
to the defaults. -/
def load_config (dc : Option String) (cfg : Option Json) : List Feed :=
  match cfg with
  | none => defaultFeeds dc
  | some data0 =>
    match pyIter (match pyOr data0 (Json.obj []) with
      | Json.obj fs => (lookupJ fs "feeds").getD (Json.arr [])
      | _ => Json.arr []) with
    | none => defaultFeeds dc
    | some entries =>
      if (loadLoop dc entries []).isEmpty then defaultFeeds dc else loadLoop dc entries []

/-! The poll loops (news_core.py lines 586-591, news_push_bot.py lines
445-451). -/

/-- The two poll-loop states of the specification. -/
inductive LoopPhase where
  | running
  | sleeping
deriving DecidableEq, Repr

/-- One iteration of `news_push_bot.main_loop` (lines 446-451): the pass
runs inside `try`, its error is printed and swallowed, and the loop always
reaches the sleep. -/
def botIter : Except Unit Unit → List LoopPhase
  | .ok _ => [LoopPhase.running, LoopPhase.sleeping]
  | .error _ => [LoopPhase.running, LoopPhase.sleeping]

/-- The phase trace of the first `n` iterations of
`news_push_bot.main_loop`, with `passes i` the outcome of pass `i`. -/
def botLoopTrace (passes : Nat → Except Unit Unit) : Nat → List LoopPhase
  | 0 => []
  | n + 1 => botLoopTrace passes n ++ botIter (passes n)

/-- The phase trace of the first `n` iterations of `news_core.main_loop`
(lines 586-591), which has no `try` around the pass: a raising pass
propagates out of the loop — the `running` phase is entered but `sleeping`
is never reached and no further iteration runs (the Boolean records that
the loop terminated by exception). -/
def coreLoopTrace (passes : Nat → Except Unit Unit) : Nat → List LoopPhase × Bool
  | 0 => ([], false)
  | n + 1 =>
    match coreLoopTrace passes n with
    | (tr, true) => (tr, true)
    | (tr, false) =>
      match passes n with
      | .ok _ => (tr ++ [LoopPhase.running, LoopPhase.sleeping], false)
      | .error _ => (tr ++ [LoopPhase.running], true)

/-! Lemmas about the chunker. -/

lemma pyStrip_length_le (s : Str) : (pyStrip s).length ≤ s.length := by
  have h1 : ((s.dropWhile isPySpace).reverse.dropWhile isPySpace).length ≤
      (s.dropWhile isPySpace).reverse.length := (List.dropWhile_sublist _).length_le
  have h2 : (s.dropWhile isPySpace).length ≤ s.length := (List.dropWhile_sublist _).length_le
  simp only [pyStrip, List.length_reverse] at *
  omega

lemma hardSplitAux_nil (lp fuel : Nat) : hardSplitAux lp fuel [] = [] := by
  cases fuel <;> simp [hardSplitAux]

lemma mem_hardSplitAux_length_le {lp : Nat} :
    ∀ {fuel : Nat} {p c : Str}, c ∈ hardSplitAux lp fuel p → c.length ≤ lp + 1 := by
  intro fuel
  induction fuel with
  | zero => intro p c hc; simp [hardSplitAux] at hc
  | succ n ih =>
    intro p c hc
    match p with
    | [] => simp [hardSplitAux] at hc
    | a :: rest =>
      simp only [hardSplitAux, List.mem_cons] at hc
      rcases hc with rfl | hc
      · exact List.length_take_le _ _
      · exact ih hc

lemma hardSplitAux_count {lp : Nat} :
    ∀ {fuel : Nat} {p : Str}, p.length ≤ fuel →
      (hardSplitAux lp fuel p).length = (p.length + lp) / (lp + 1) := by
  intro fuel
  induction fuel with
  | zero =>
    intro p hp
    have : p = [] := List.length_eq_zero.mp (Nat.le_zero.mp hp)
    subst this
    simp [hardSplitAux, Nat.div_eq_of_lt]
  | succ n ih =>
    intro p hp
    match p with
    | [] => simp [hardSplitAux, Nat.div_eq_of_lt]
    | a :: rest =>
      have hlen : (rest.drop lp).length ≤ n := by
        simp only [List.length_drop]
        simp only [List.length_cons] at hp
        omega
      simp only [hardSplitAux, List.length_cons, ih hlen, List.length_drop]
      rcases Nat.le_total rest.length lp with h | h
      · have h0 : rest.length - lp = 0 := by omega
        rw [h0, Nat.zero_add]
        have hlow : rest.length + 1 + lp = rest.length + (lp + 1) := by omega
        rw [hlow, Nat.add_div_right _ (by omega),
          Nat.div_eq_of_lt (by omega : lp < lp + 1),
          Nat.div_eq_of_lt (by omega : rest.length < lp + 1)]
      · have h1 : rest.length - lp + lp = rest.length := by omega
        rw [h1]
        have h2 : rest.length + 1 + lp = rest.length + (lp + 1) := by omega
        rw [h2, Nat.add_div_right _ (by omega)]

lemma hardSplitAux_dropLast {lp : Nat} :
    ∀ {fuel : Nat} {p : Str}, p.length ≤ fuel →
      ∀ c ∈ (hardSplitAux lp fuel p).dropLast, c.length = lp + 1 := by
  intro fuel
  induction fuel with
  | zero =>
    intro p hp c hc
    have : p = [] := List.length_eq_zero.mp (Nat.le_zero.mp hp)
    subst this
    simp [hardSplitAux] at hc
  | succ n ih =>
    intro p hp c hc
    match p with
    | [] => simp [hardSplitAux] at hc
    | a :: rest =>
      simp only [hardSplitAux] at hc
      by_cases hrec : hardSplitAux lp n (rest.drop lp) = []
      · rw [hrec] at hc
        simp at hc
      · rw [List.dropLast_cons_of_ne_nil hrec, List.mem_cons] at hc
        have hdrop : rest.drop lp ≠ [] := by
          intro h
          rw [h, hardSplitAux_nil] at hrec
          exact hrec rfl
        have hlp : lp < rest.length := by
          by_contra h
          exact hdrop (List.drop_eq_nil_of_le (by omega))
        rcases hc with rfl | hc
        · simp only [List.length_take, List.length_cons]
          omega
        · exact ih (by simp only [List.length_drop]; simp only [List.length_cons] at hp; omega) c hc

lemma hardSplitAux_join {lp : Nat} :
    ∀ {fuel : Nat} {p : Str}, p.length ≤ fuel → (hardSplitAux lp fuel p).flatten = p := by
  intro fuel
  induction fuel with
  | zero =>
    intro p hp
    have : p = [] := List.length_eq_zero.mp (Nat.le_zero.mp hp)
    subst this
    simp [hardSplitAux]
  | succ n ih =>
    intro p hp
    match p with
    | [] => simp [hardSplitAux]
    | a :: rest =>
      have hlen : (rest.drop lp).length ≤ n := by
        simp only [List.length_drop]
        simp only [List.length_cons] at hp
        omega
      simp only [hardSplitAux, List.flatten_cons, ih hlen]
      have : rest.drop lp = (a :: rest).drop (lp + 1) := by simp [List.drop_succ_cons]
      rw [this, List.take_append_drop]

lemma chunkLoop_length_le {limit : Nat} (hl : 0 < limit) :
    ∀ (paras : List Str) (cur : Str) (chunks : List Str),
      cur.length ≤ limit → (∀ c ∈ chunks, c.length ≤ limit) →
      ∀ c ∈ chunkLoop limit paras cur chunks, c.length ≤ limit := by
  intro paras
  induction paras with
  | nil =>
    intro cur chunks hcur hch c hc
    simp only [chunkLoop] at hc
    split at hc
    · exact hch c hc
    · rcases List.mem_append.mp hc with h | h
      · exact hch c h
      · rw [List.mem_singleton.mp h]; exact hcur
  | cons p0 rest ih =>
    intro cur chunks hcur hch c hc
    simp only [chunkLoop] at hc
    by_cases h1 : pyStrip p0 = []
    · rw [if_pos h1] at hc
      exact ih cur chunks hcur hch c hc
    · rw [if_neg h1] at hc
      by_cases h2 : limit < (pyStrip p0).length
      · rw [if_pos h2] at hc
        refine ih [] _ (by simp) ?_ c hc
        intro d hd
        rcases List.mem_append.mp hd with hd | hd
        · by_cases h3 : cur = []
          · rw [if_pos h3] at hd
            exact hch d hd
          · rw [if_neg h3] at hd
            rcases List.mem_append.mp hd with hd | hd
            · exact hch d hd
            · rw [List.mem_singleton.mp hd]; exact hcur
        · have := mem_hardSplitAux_length_le hd
          omega
      · rw [if_neg h2] at hc
        by_cases h3 :
            (pyStrip (cur ++ (if cur = [] then [] else ['\n', '\n']) ++ pyStrip p0)).length ≤ limit
        · rw [if_pos h3] at hc
          exact ih _ chunks h3 hch c hc
        · rw [if_neg h3] at hc
          refine ih (pyStrip p0) _ (by omega) ?_ c hc
          intro d hd
          by_cases h4 : cur = []
          · rw [if_pos h4] at hd
            exact hch d hd
          · rw [if_neg h4] at hd
            rcases List.mem_append.mp hd with hd | hd
            · exact hch d hd
            · rw [List.mem_singleton.mp hd]; exact hcur

lemma chunk_text_single {p : Str} {limit : Int} (hl : 0 < limit)
    (hsp : splitParas p = [p]) (hst : pyStrip p = p)
    (hlen : (limit : Int) < p.length) :
    chunk_text p limit = hardSplit (limit.toNat - 1) p := by
  have h1 : ¬ limit ≤ 0 := by omega
  have h2 : ¬ (p.length : Int) ≤ limit := by omega
  have h3 : limit.toNat < p.length := by omega
  have h4 : p ≠ [] := by
    intro h
    rw [h] at h3
    simp only [List.length_nil] at h3
    omega
  unfold chunk_text
  rw [if_neg h1, if_neg h2, hsp]
  simp only [chunkLoop, hst]
  rw [if_neg (by simpa using h4), if_pos h3]
  simp [chunkLoop]

/-- C4: for every text and limit, if `limit > 0` every segment returned by
`chunk_text` has length at most `limit`; a single (pre-stripped,
separator-free) paragraph longer than `limit` is emitted as exactly
`ceil(len / limit)` consecutive slices, each of length `limit` except the
last, whose concatenation is the paragraph; if `limit ≤ 0` the result is
exactly one segment equal to the input text. -/
theorem C4_chunk_text (s : Str) (limit : Int) :
    (limit ≤ 0 → chunk_text s limit = [s]) ∧
    (0 < limit → ∀ c ∈ chunk_text s limit, (c.length : Int) ≤ limit) ∧
    (∀ p : Str, 0 < limit → splitParas p = [p] → pyStrip p = p →
      (limit : Int) < p.length →
      chunk_text p limit = hardSplit (limit.toNat - 1) p ∧
      (chunk_text p limit).length = (p.length + limit.toNat - 1) / limit.toNat ∧
      (∀ c ∈ (chunk_text p limit).dropLast, c.length = limit.toNat) ∧
      (chunk_text p limit).flatten = p) := by
  refine ⟨fun h => by unfold chunk_text; rw [if_pos h], fun hl c hc => ?_, ?_⟩
  · unfold chunk_text at hc
    rw [if_neg (by omega)] at hc
    split_ifs at hc with h2
    · rw [List.mem_singleton.mp hc]
      exact h2
    · have hb := @chunkLoop_length_le limit.toNat (by omega) (splitParas s) [] []
        (by simp) (by simp) c hc
      omega
  · intro p hl hsp hst hlen
    have heq := chunk_text_single hl hsp hst hlen
    have htn : 0 < limit.toNat := by omega
    have hkey : limit.toNat - 1 + 1 = limit.toNat := by omega
    refine ⟨heq, ?_, ?_, ?_⟩
    · rw [heq]
      unfold hardSplit
      rw [hardSplitAux_count (le_refl _)]
      have : p.length + (limit.toNat - 1) = p.length + limit.toNat - 1 := by omega
      rw [this, hkey]
    · intro c hc
      rw [heq] at hc
      have := hardSplitAux_dropLast (le_refl p.length) c hc
      omega
    · rw [heq]
      exact hardSplitAux_join (le_refl _)

/-- Witness for C4 at concrete inputs: limit `-1` returns the whole text;
with limit `3` on `"abcdefg"` (a single 7-character paragraph) the bound
holds, the result is the hard-split `["abc", "def", "g"]` with
`ceil(7/3) = 3` pieces, all but the last of length 3, re-joining to the
input. -/
theorem C4_chunk_text_witness :
    chunk_text "  x  ".data (-1) = ["  x  ".data] ∧
    (∀ c ∈ chunk_text "abcdefg".data 3, (c.length : Int) ≤ 3) ∧
    (chunk_text "abcdefg".data 3 = hardSplit 2 "abcdefg".data ∧
      (chunk_text "abcdefg".data 3).length = ("abcdefg".data.length + 3 - 1) / 3 ∧
      (∀ c ∈ (chunk_text "abcdefg".data 3).dropLast, c.length = 3) ∧
      (chunk_text "abcdefg".data 3).flatten = "abcdefg".data) := by
  refine ⟨(C4_chunk_text "  x  ".data (-1)).1 (by decide), ?_, ?_⟩
  · exact (C4_chunk_text "abcdefg".data 3).2.1 (by decide)
  · have h := (C4_chunk_text "abcdefg".data 3).2.2 "abcdefg".data (by decide)
      (by decide) (by decide) (by decide)
    exact h

/-! Lemmas about the chronological order, and claim C2. -/

lemma strLeB_trans : ∀ a b c : Str, strLeB a b = true → strLeB b c = true → strLeB a c = true := by
  intro a
  induction a with
  | nil => intro b c _ _; simp [strLeB]
  | cons x xs ih =>
    intro b c hab hbc
    match b, c with
    | [], _ => simp [strLeB] at hab
    | y :: ys, [] => simp [strLeB] at hbc
    | y :: ys, z :: zs =>
      simp only [strLeB] at hab hbc ⊢
      by_cases h3 : x.toNat < z.toNat
      · rw [if_pos h3]
      · rw [if_neg h3]
        by_cases h1 : x.toNat < y.toNat
        · rw [if_pos h1] at hab
          by_cases h2 : y.toNat < z.toNat
          · omega
          · rw [if_neg h2] at hbc
            by_cases h2' : z.toNat < y.toNat
            · rw [if_pos h2'] at hbc
              simp at hbc
            · omega
        · rw [if_neg h1] at hab
          by_cases h1' : y.toNat < x.toNat
          · rw [if_pos h1'] at hab
            simp at hab
          · rw [if_neg h1'] at hab
            by_cases h2 : y.toNat < z.toNat
            · omega
            · rw [if_neg h2] at hbc
              by_cases h2' : z.toNat < y.toNat
              · rw [if_pos h2'] at hbc
                simp at hbc
              · rw [if_neg h2'] at hbc
                rw [if_neg (by omega : ¬ z.toNat < x.toNat)]
                exact ih ys zs hab hbc

lemma strLeB_total : ∀ a b : Str, strLeB a b = true ∨ strLeB b a = true := by
  intro a
  induction a with
  | nil => intro b; left; simp [strLeB]
  | cons x xs ih =>
    intro b
    match b with
    | [] => right; simp [strLeB]
    | y :: ys =>
      simp only [strLeB]
      by_cases h1 : x.toNat < y.toNat
      · left
        rw [if_pos h1]
      · by_cases h2 : y.toNat < x.toNat
        · right
          rw [if_pos h2]
        · rw [if_neg h1, if_neg h2, if_neg h2, if_neg h1]
          exact ih ys

lemma keyLeB_trans {a b c : Int × Str} (hab : keyLeB a b = true)
    (hbc : keyLeB b c = true) : keyLeB a c = true := by
  simp only [keyLeB, Bool.or_eq_true, Bool.and_eq_true, decide_eq_true_eq] at *
  rcases hab with h1 | ⟨h1, h1s⟩
  · rcases hbc with h2 | ⟨h2, _⟩
    · left; omega
    · left; omega
  · rcases hbc with h2 | ⟨h2, h2s⟩
    · left; omega
    · right
      exact ⟨by omega, strLeB_trans _ _ _ h1s h2s⟩

lemma keyLeB_total (a b : Int × Str) : keyLeB a b = true ∨ keyLeB b a = true := by
  simp only [keyLeB, Bool.or_eq_true, Bool.and_eq_true, decide_eq_true_eq]
  rcases lt_trichotomy a.1 b.1 with h | h | h
  · left; left; exact h
  · rcases strLeB_total a.2 b.2 with hs | hs
    · left; right; exact ⟨h, hs⟩
    · right; right; exact ⟨h.symm, hs⟩
  · right; left; exact h

instance : IsTrans Item ItemLe := ⟨fun _ _ _ => keyLeB_trans⟩

instance : IsTotal Item ItemLe := ⟨fun _ _ => keyLeB_total _ _⟩

lemma parse_iso_nonneg (s : String) : 0 ≤ (parse_iso s).getD 0 := by
  unfold parse_iso
  by_cases h : s = ""
  · rw [if_pos h]
    simp
  · rw [if_neg h]
    cases hf : fromIso (zSubst (pyStrip s.data)) with
    | none => simp
    | some p =>
      obtain ⟨enc, off⟩ := p
      cases off with
      | none => simp
      | some o =>
        simp only
        by_cases hv : (enc : Int) - o * 1000000 < 0 ∨
            (dtMaxEnc : Int) < (enc : Int) - o * 1000000
        · rw [if_pos hv]
          simp
        · rw [if_neg hv]
          simp only [Option.getD_some]
          omega

/-- C2: the dispatcher's sort yields a permutation of the new items that is
sorted ascending by the key `(parsed ISO date, link)`; the key of an item
is exactly `(parse_iso(date_iso) or datetime.min, link)`, an absent or
unparsable date maps to the minimum encoding `0` (no parsable date encodes
below it), and on items dated `2024-01-02`, `2024-01-01` and one with no
date, the send order is [undated, 2024-01-01, 2024-01-02]. -/
theorem C2_send_order :
    (∀ l : List Item, (sortItems l).Perm l ∧ (sortItems l).Sorted ItemLe) ∧
    (∀ it : Item, parse_dt_key it = ((parse_iso it.date_iso).getD 0, it.link.data)) ∧
    (∀ s : String, 0 ≤ (parse_iso s).getD 0) ∧
    parse_iso "" = none ∧ parse_iso "not-a-date" = none ∧
    sortItems
      [⟨"a", "a", "a", "", "2024-01-02"⟩, ⟨"b", "b", "b", "", "2024-01-01"⟩,
        ⟨"c", "c", "c", "", ""⟩] =
      [⟨"c", "c", "c", "", ""⟩, ⟨"b", "b", "b", "", "2024-01-01"⟩,
        ⟨"a", "a", "a", "", "2024-01-02"⟩] := by
  refine ⟨fun l => ⟨List.perm_insertionSort _ _, List.sorted_insertionSort _ _⟩,
    fun it => rfl, parse_iso_nonneg, by decide, by decide, by decide⟩


/-! Lemmas about the dispatch cycle, and claims C1, C3 and C5. -/

lemma dispatchItems_log (o : Item → Bool) (k : String) :
    ∀ (l : List Item) (ids : List String),
      (dispatchItems o k l ids).1 = l.map (fun it => (k, it, o it)) := by
  intro l
  induction l with
  | nil => intro ids; rfl
  | cons it rest ih =>
    intro ids
    simp [dispatchItems, ih]

lemma mem_dispatchItems_ids (o : Item → Bool) (k : String) :
    ∀ (l : List Item) (ids : List String) (x : String),
      x ∈ (dispatchItems o k l ids).2 ↔ x ∈ ids ∨ x ∈ l.map Item.id := by
  intro l
  induction l with
  | nil => intro ids x; simp [dispatchItems]
  | cons it rest ih =>
    intro ids x
    simp only [dispatchItems]
    rw [ih]
    by_cases hm : ids.contains it.id
    · rw [if_pos hm]
      have hmem : it.id ∈ ids := by
        simpa using hm
      simp only [List.map_cons, List.mem_cons]
      constructor
      · rintro (h | h)
        · exact Or.inl h
        · exact Or.inr (Or.inr h)
      · rintro (h | h | h)
        · exact Or.inl h
        · exact Or.inl (h ▸ hmem)
        · exact Or.inr h
    · rw [if_neg hm]
      simp only [List.map_cons, List.mem_cons, List.mem_append, List.mem_singleton]
      tauto

lemma dispatchItems_ids_indep (o o' : Item → Bool) (k k' : String) :
    ∀ (l : List Item) (ids : List String),
      (dispatchItems o k l ids).2 = (dispatchItems o' k' l ids).2 := by
  intro l
  induction l with
  | nil => intro ids; rfl
  | cons it rest ih =>
    intro ids
    simp [dispatchItems, ih]

lemma mem_pySortedSet {x : String} {v : List String} : x ∈ pySortedSet v ↔ x ∈ v := by
  unfold pySortedSet
  rw [(List.perm_insertionSort StrLe _).mem_iff, List.mem_dedup]

lemma mem_sortItems {it : Item} {l : List Item} : it ∈ sortItems l ↔ it ∈ l :=
  (List.perm_insertionSort ItemLe l).mem_iff

lemma lookupSeen_updateSeen_self (m : SeenMap) (k : String) (v : List String) :
    lookupSeen (updateSeen m k v) k = some v := by
  induction m with
  | nil => simp [updateSeen, lookupSeen]
  | cons p rest ih =>
    obtain ⟨k', v'⟩ := p
    by_cases h : k' = k
    · simp [updateSeen, h, lookupSeen]
    · simp [updateSeen, h, lookupSeen, ih]

lemma lookupSeen_updateSeen_ne (m : SeenMap) (k k' : String) (v : List String)
    (hne : k ≠ k') : lookupSeen (updateSeen m k v) k' = lookupSeen m k' := by
  induction m with
  | nil => simp [updateSeen, lookupSeen, hne]
  | cons p rest ih =>
    obtain ⟨k0, v0⟩ := p
    by_cases h : k0 = k
    · subst h
      simp [updateSeen, lookupSeen, hne]
    · by_cases h2 : k0 = k'
      · subst h2
        simp only [updateSeen, lookupSeen]
        rw [if_neg (fun hh => hne hh.symm)]
        simp [lookupSeen]
      · simp [updateSeen, h, lookupSeen, h2, ih]

lemma processFeed_log (seen : SeenMap) (f : Feed) (items : List Item) (o : Item → Bool) :
    (processFeed seen f (.ok items) o).2 =
      (sortItems ((consideredItems f items).filter
        (fun it => decide (it.id ∉ (lookupSeen seen f.key).getD [])))).map
        (fun it => (f.key, it, o it)) := by
  simp only [processFeed]
  by_cases h1 : consideredItems f items = []
  · rw [if_pos h1, h1]
    simp [sortItems, List.insertionSort]
  · rw [if_neg h1]
    by_cases h2 : (consideredItems f items).filter
        (fun it => decide (it.id ∉ (lookupSeen seen f.key).getD [])) = []
    · rw [if_pos h2, h2]
      simp [sortItems, List.insertionSort]
    · rw [if_neg h2]
      simp [dispatchItems_log]

lemma processFeed_store_self (seen : SeenMap) (f : Feed) (items : List Item)
    (o : Item → Bool) (x : String) :
    x ∈ (lookupSeen (processFeed seen f (.ok items) o).1 f.key).getD [] ↔
      x ∈ (lookupSeen seen f.key).getD [] ∨ x ∈ (consideredItems f items).map Item.id := by
  simp only [processFeed]
  by_cases h1 : consideredItems f items = []
  · rw [if_pos h1, h1]
    simp
  · rw [if_neg h1]
    by_cases h2 : (consideredItems f items).filter
        (fun it => decide (it.id ∉ (lookupSeen seen f.key).getD [])) = []
    · rw [if_pos h2]
      have hall := List.filter_eq_nil_iff.mp h2
      constructor
      · exact fun h => Or.inl h
      · rintro (h | h)
        · exact h
        · obtain ⟨it, hit, rfl⟩ := List.mem_map.mp h
          have := hall it hit
          simp only [decide_eq_true_eq, not_not] at this
          exact this
    · rw [if_neg h2]
      rw [lookupSeen_updateSeen_self]
      simp only [Option.getD_some]
      rw [mem_pySortedSet, mem_dispatchItems_ids]
      constructor
      · rintro (h | h)
        · exact Or.inl h
        · obtain ⟨it, hit, rfl⟩ := List.mem_map.mp h
          rw [mem_sortItems] at hit
          exact Or.inr (List.mem_map.mpr ⟨it, List.mem_of_mem_filter hit, rfl⟩)
      · rintro (h | h)
        · exact Or.inl h
        · obtain ⟨it, hit, rfl⟩ := List.mem_map.mp h
          by_cases hx : it.id ∈ (lookupSeen seen f.key).getD []
          · exact Or.inl hx
          · refine Or.inr (List.mem_map.mpr ⟨it, ?_, rfl⟩)
            rw [mem_sortItems]
            exact List.mem_filter.mpr ⟨hit, by simpa using hx⟩

lemma processFeed_store_mono (seen : SeenMap) (f : Feed) (fetched : Except Unit (List Item))
    (o : Item → Bool) (k : String) (x : String)
    (hx : x ∈ (lookupSeen seen k).getD []) :
    x ∈ (lookupSeen (processFeed seen f fetched o).1 k).getD [] := by
  match fetched with
  | .error _ => exact hx
  | .ok items =>
    by_cases hk : f.key = k
    · subst hk
      rw [processFeed_store_self]
      exact Or.inl hx
    · simp only [processFeed]
      by_cases h1 : consideredItems f items = []
      · rw [if_pos h1]
        exact hx
      · rw [if_neg h1]
        by_cases h2 : (consideredItems f items).filter
            (fun it => decide (it.id ∉ (lookupSeen seen f.key).getD [])) = []
        · rw [if_pos h2]
          exact hx
        · rw [if_neg h2]
          rw [lookupSeen_updateSeen_ne _ _ _ _ hk]
          exact hx

lemma processFeed_attempt (seen : SeenMap) (f : Feed) (fetched : Except Unit (List Item))
    (o : Item → Bool) (k : String) (it : Item) (b : Bool)
    (h : (k, it, b) ∈ (processFeed seen f fetched o).2) :
    k = f.key ∧ it.id ∉ (lookupSeen seen f.key).getD [] ∧
      it.id ∈ (lookupSeen (processFeed seen f fetched o).1 f.key).getD [] := by
  match fetched with
  | .error _ => simp [processFeed] at h
  | .ok items =>
    rw [processFeed_log] at h
    obtain ⟨it', hit', heq⟩ := List.mem_map.mp h
    have hk : f.key = k := congrArg Prod.fst heq
    have hiteq : it' = it := congrArg (fun p => p.2.1) heq
    subst hiteq
    rw [mem_sortItems] at hit'
    have hfilter := List.mem_filter.mp hit'
    refine ⟨hk.symm, by simpa using hfilter.2, ?_⟩
    rw [processFeed_store_self]
    exact Or.inr (List.mem_map.mpr ⟨it', hfilter.1, rfl⟩)

lemma runCycle_store_mono :
    ∀ (frs : List FeedRun) (seen : SeenMap) (k : String) (x : String),
      x ∈ (lookupSeen seen k).getD [] → x ∈ (lookupSeen (runCycle seen frs).1 k).getD [] := by
  intro frs
  induction frs with
  | nil => intro seen k x hx; exact hx
  | cons fr rest ih =>
    intro seen k x hx
    exact ih _ k x (processFeed_store_mono seen fr.feed fr.fetched fr.sendOk k x hx)

lemma runCycle_attempt :
    ∀ (frs : List FeedRun) (seen : SeenMap) (k : String) (it : Item) (b : Bool),
      (k, it, b) ∈ (runCycle seen frs).2 →
      it.id ∈ (lookupSeen (runCycle seen frs).1 k).getD [] := by
  intro frs
  induction frs with
  | nil => intro seen k it b h; simp [runCycle] at h
  | cons fr rest ih =>
    intro seen k it b h
    simp only [runCycle, List.mem_append] at h
    rcases h with h | h
    · obtain ⟨hk, _, hmem⟩ := processFeed_attempt seen fr.feed fr.fetched fr.sendOk k it b h
      subst hk
      exact runCycle_store_mono rest _ _ _ hmem
    · exact ih _ k it b h

lemma runCycle_no_reattempt :
    ∀ (frs : List FeedRun) (seen : SeenMap) (k : String) (x : String) (it : Item) (b : Bool),
      x ∈ (lookupSeen seen k).getD [] → (k, it, b) ∈ (runCycle seen frs).2 → it.id ≠ x := by
  intro frs
  induction frs with
  | nil => intro seen k x it b _ h; simp [runCycle] at h
  | cons fr rest ih =>
    intro seen k x it b hx h
    simp only [runCycle, List.mem_append] at h
    rcases h with h | h
    · obtain ⟨hk, hnot, _⟩ := processFeed_attempt seen fr.feed fr.fetched fr.sendOk k it b h
      subst hk
      intro heq
      exact hnot (heq ▸ hx)
    · exact ih _ k x it b (processFeed_store_mono seen fr.feed fr.fetched fr.sendOk k x hx) h

lemma runCycles_no_reattempt :
    ∀ (cs : List (List FeedRun)) (seen : SeenMap) (k : String) (x : String) (j : Nat)
      (lj : List (String × Item × Bool)) (it : Item) (b : Bool),
      x ∈ (lookupSeen seen k).getD [] → (runCycles seen cs).2.get? j = some lj →
      (k, it, b) ∈ lj → it.id ≠ x := by
  intro cs
  induction cs with
  | nil => intro seen k x j lj it b _ hj _; simp [runCycles] at hj
  | cons c cs' ih =>
    intro seen k x j lj it b hx hj hm
    match j with
    | 0 =>
      simp only [runCycles, List.get?] at hj
      cases hj
      exact runCycle_no_reattempt c seen k x it b hx hm
    | j' + 1 =>
      simp only [runCycles, List.get?] at hj
      exact ih _ k x j' lj it b (runCycle_store_mono c seen k x hx) hj hm

lemma processFeed_store_indep (seen : SeenMap) (f : Feed) (fetched : Except Unit (List Item))
    (o o' : Item → Bool) :
    (processFeed seen f fetched o).1 = (processFeed seen f fetched o').1 := by
  match fetched with
  | .error _ => rfl
  | .ok items =>
    simp only [processFeed]
    by_cases h1 : consideredItems f items = []
    · rw [if_pos h1, if_pos h1]
    · rw [if_neg h1, if_neg h1]
      by_cases h2 : (consideredItems f items).filter
          (fun it => decide (it.id ∉ (lookupSeen seen f.key).getD [])) = []
      · rw [if_pos h2, if_pos h2]
      · rw [if_neg h2, if_neg h2, dispatchItems_ids_indep o o' f.key f.key]

lemma runCycles_at_most_once :
    ∀ (cs : List (List FeedRun)) (seen : SeenMap) (i j : Nat)
      (li lj : List (String × Item × Bool)) (k : String) (it it2 : Item) (b b2 : Bool),
      i < j → (runCycles seen cs).2.get? i = some li → (k, it, b) ∈ li →
      (runCycles seen cs).2.get? j = some lj → (k, it2, b2) ∈ lj → it2.id ≠ it.id := by
  intro cs
  induction cs with
  | nil =>
    intro seen i j li lj k it it2 b b2 _ hi _ _ _
    simp [runCycles] at hi
  | cons c cs' ih =>
    intro seen i j li lj k it it2 b b2 hij hi hmi hj hmj
    match i, j with
    | 0, 0 => omega
    | 0, j' + 1 =>
      simp only [runCycles, List.get?] at hi hj
      cases hi
      exact runCycles_no_reattempt cs' _ k it.id j' lj it2 b2
        (runCycle_attempt c seen k it b hmi) hj hmj
    | i' + 1, 0 => omega
    | i' + 1, j' + 1 =>
      simp only [runCycles, List.get?] at hi hj
      exact ih _ i' j' li lj k it it2 b b2 (by omega) hi hmi hj hmj

lemma runCycle_cons (seen : SeenMap) (fr : FeedRun) (rest : List FeedRun) :
    runCycle seen (fr :: rest) =
      ((runCycle (processFeed seen fr.feed fr.fetched fr.sendOk).1 rest).1,
        (processFeed seen fr.feed fr.fetched fr.sendOk).2 ++
          (runCycle (processFeed seen fr.feed fr.fetched fr.sendOk).1 rest).2) := rfl

lemma runCycle_skip_error :
    ∀ (pre : List FeedRun) (seen : SeenMap) (fr : FeedRun) (rest : List FeedRun),
      fr.fetched = .error () →
      runCycle seen (pre ++ fr :: rest) = runCycle seen (pre ++ rest) := by
  intro pre
  induction pre with
  | nil =>
    intro seen fr rest hf
    rw [List.nil_append, List.nil_append, runCycle_cons, hf]
    simp [processFeed]
  | cons p pre' ih =>
    intro seen fr rest hf
    rw [List.cons_append, List.cons_append, runCycle_cons, runCycle_cons, ih _ fr rest hf]

/-- C1: for a dispatch cycle over one feed, the attempted sends are
exactly the considered fetched items whose id is not yet in the store's
set for the feed's key (in sorted order); the store's set for that key
afterwards holds an id exactly when it was there before or is a fetched
id; no id present before under any key is ever removed; and on the
concrete example — store `{"feeds": {"f1": ["u1"]}}`, fetched ids
`["u1", "u2"]` — only the item with id `u2` is sent and the persisted
store maps `f1` to `["u1", "u2"]`. -/
theorem C1_dedup_filter_and_store :
    (∀ (seen : SeenMap) (f : Feed) (items : List Item) (sendOk : Item → Bool),
      (processFeed seen f (.ok items) sendOk).2.map (fun e => e.2.1) =
        sortItems ((consideredItems f items).filter
          (fun it => decide (it.id ∉ (lookupSeen seen f.key).getD []))) ∧
      (∀ x, x ∈ (lookupSeen (processFeed seen f (.ok items) sendOk).1 f.key).getD [] ↔
        x ∈ (lookupSeen seen f.key).getD [] ∨ x ∈ (consideredItems f items).map Item.id) ∧
      (∀ k x, x ∈ (lookupSeen seen k).getD [] →
        x ∈ (lookupSeen (processFeed seen f (.ok items) sendOk).1 k).getD [])) ∧
    ((processFeed
        (load_seen (some (Json.obj [("feeds", Json.obj [("f1", Json.arr [Json.str "u1"])])])))
        { key := "f1", type := "rss", url := "https://example.org/feed" }
        (.ok [⟨"u1", "t1", "u1", "", ""⟩, ⟨"u2", "t2", "u2", "", ""⟩])
        (fun _ => true)).2.map (fun e => e.2.1) = [⟨"u2", "t2", "u2", "", ""⟩] ∧
      save_seen (processFeed
        (load_seen (some (Json.obj [("feeds", Json.obj [("f1", Json.arr [Json.str "u1"])])])))
        { key := "f1", type := "rss", url := "https://example.org/feed" }
        (.ok [⟨"u1", "t1", "u1", "", ""⟩, ⟨"u2", "t2", "u2", "", ""⟩])
        (fun _ => true)).1 =
        Json.obj [("f1", Json.arr [Json.str "u1", Json.str "u2"])]) := by
  refine ⟨fun seen f items sendOk => ⟨?_, processFeed_store_self seen f items sendOk,
    fun k x hx => processFeed_store_mono seen f (.ok items) sendOk k x hx⟩, by decide, by rfl⟩
  rw [processFeed_log, List.map_map]
  exact List.map_id _

/-- Witness for C1's monotonic-growth hypothesis at a concrete store: the
id `u1`, present for `f1` before the cycle, is still present after it. -/
theorem C1_dedup_filter_and_store_witness :
    ("u1" : String) ∈ (lookupSeen [("f1", ["u1"])] "f1").getD [] ∧
    ("u1" : String) ∈ (lookupSeen (processFeed [("f1", ["u1"])]
      { key := "f1", type := "rss", url := "https://example.org/feed" }
      (.ok [⟨"u2", "t2", "u2", "", ""⟩]) (fun _ => true)).1 "f1").getD [] :=
  ⟨by decide, (C1_dedup_filter_and_store.1 [("f1", ["u1"])]
    { key := "f1", type := "rss", url := "https://example.org/feed" }
    [⟨"u2", "t2", "u2", "", ""⟩] (fun _ => true)).2.2 "f1" "u1" (by decide)⟩

/-- C3: the store a dispatch pass leaves behind is independent of the send
outcomes (an item's id is marked seen whether its send succeeded or
raised); every new item is attempted exactly once in the pass, each tagged
with its own outcome, so a failing send does not stop the pass; and across
the passes of the poll loop an item attempted for a key in one pass is
never attempted for that key in any later pass (at-most-once effort). -/
theorem C3_mark_seen_regardless :
    (∀ (seen : SeenMap) (f : Feed) (fetched : Except Unit (List Item)) (o o' : Item → Bool),
      (processFeed seen f fetched o).1 = (processFeed seen f fetched o').1) ∧
    (∀ (seen : SeenMap) (f : Feed) (items : List Item) (o : Item → Bool),
      (processFeed seen f (.ok items) o).2 =
        (sortItems ((consideredItems f items).filter
          (fun it => decide (it.id ∉ (lookupSeen seen f.key).getD [])))).map
          (fun it => (f.key, it, o it))) ∧
    (∀ (seen : SeenMap) (cs : List (List FeedRun)) (i j : Nat)
      (li lj : List (String × Item × Bool)) (k : String) (it it2 : Item) (b b2 : Bool),
      i < j → (runCycles seen cs).2.get? i = some li → (k, it, b) ∈ li →
      (runCycles seen cs).2.get? j = some lj → (k, it2, b2) ∈ lj → it2.id ≠ it.id) :=
  ⟨fun seen f fetched o o' => processFeed_store_indep seen f fetched o o',
    fun seen f items o => processFeed_log seen f items o,
    fun seen cs i j li lj k it it2 b b2 => runCycles_at_most_once cs seen i j li lj k it it2 b b2⟩

/-- Witness for C3 at a concrete two-pass run: the item `u2` fails its
send in pass 0 yet is marked seen, and the only attempt of pass 1 — which
fetches `u2` again together with the new `u3` — is `u3`. -/
theorem C3_mark_seen_regardless_witness : (0 : Nat) < 1 ∧ ("u3" : String) ≠ "u2" :=
  ⟨by decide, C3_mark_seen_regardless.2.2 []
    [[⟨{ key := "f1", type := "rss", url := "https://example.org/feed" },
        .ok [⟨"u2", "t2", "u2", "", ""⟩], fun _ => false⟩],
      [⟨{ key := "f1", type := "rss", url := "https://example.org/feed" },
        .ok [⟨"u2", "t2", "u2", "", ""⟩, ⟨"u3", "t3", "u3", "", ""⟩], fun _ => false⟩]]
    0 1 [("f1", ⟨"u2", "t2", "u2", "", ""⟩, false)] [("f1", ⟨"u3", "t3", "u3", "", ""⟩, false)]
    "f1" ⟨"u2", "t2", "u2", "", ""⟩ ⟨"u3", "t3", "u3", "", ""⟩ false false
    (by decide) (by decide) (by decide) (by decide) (by decide)⟩

/-- C5: every adapter returns the empty item sequence on a network error —
and on its format errors: a listing page without the expected container,
a non-list JSON-API document — and a feed whose fetch fails contributes
nothing to the pass while every other configured feed is processed exactly
as if the failing feed were absent. -/
theorem C5_adapters_fail_open :
    fetch_list (.error ()) = [] ∧ fetch_list (.ok none) = [] ∧
    fetch_rss (.error ()) = [] ∧ fetch_dvb (.error ()) = [] ∧
    (∀ j : Json, (∀ xs, j ≠ Json.arr xs) → fetch_dvb (.ok j) = []) ∧
    fetch_eleven (.error ()) = [] ∧
    (∀ (seen : SeenMap) (pre : List FeedRun) (fr : FeedRun) (rest : List FeedRun),
      fr.fetched = .error () →
      runCycle seen (pre ++ fr :: rest) = runCycle seen (pre ++ rest)) := by
  refine ⟨rfl, rfl, rfl, rfl, fun j h => ?_, rfl,
    fun seen pre fr rest hf => runCycle_skip_error pre seen fr rest hf⟩
  match j with
  | Json.null => rfl
  | Json.bool _ => rfl
  | Json.num _ => rfl
  | Json.str _ => rfl
  | Json.obj _ => rfl
  | Json.arr xs => exact absurd rfl (h xs)

/-- Witness for C5 at concrete inputs: a non-list JSON-API response yields
no items, and a pass over a failing feed followed by a healthy one equals
the pass over the healthy one alone. -/
theorem C5_adapters_fail_open_witness :
    fetch_dvb (.ok (Json.str "oops")) = [] ∧
    runCycle [] ([] ++
        ⟨{ key := "broken", type := "rss", url := "https://example.org/a" },
          .error (), fun _ => true⟩ ::
        [⟨{ key := "f1", type := "rss", url := "https://example.org/feed" },
          .ok [⟨"u2", "t2", "u2", "", ""⟩], fun _ => true⟩]) =
      runCycle [] ([] ++
        [⟨{ key := "f1", type := "rss", url := "https://example.org/feed" },
          .ok [⟨"u2", "t2", "u2", "", ""⟩], fun _ => true⟩]) :=
  ⟨C5_adapters_fail_open.2.2.2.2.1 (Json.str "oops") (fun _ h => Json.noConfusion h),
    C5_adapters_fail_open.2.2.2.2.2.2 [] []
      ⟨{ key := "broken", type := "rss", url := "https://example.org/a" },
        .error (), fun _ => true⟩
      [⟨{ key := "f1", type := "rss", url := "https://example.org/feed" },
        .ok [⟨"u2", "t2", "u2", "", ""⟩], fun _ => true⟩] rfl⟩

/-! Lemmas about the persisted store, and claims C6 and C10. -/

instance : IsTrans String StrLe := ⟨fun a b c => strLeB_trans a.data b.data c.data⟩

instance : IsTotal String StrLe := ⟨fun a b => strLeB_total a.data b.data⟩

lemma strMapId (v : List String) : (v.map Json.str).map pyStr = v := by
  rw [List.map_map]
  exact List.map_id _

lemma lookupJ_saveFields (m : SeenMap) (k : String) :
    lookupJ (m.map (fun p => (p.1, Json.arr ((pySortedSet p.2).map Json.str)))) k =
      (lookupSeen m k).map (fun v => Json.arr ((pySortedSet v).map Json.str)) := by
  induction m with
  | nil => rfl
  | cons p rest ih =>
    obtain ⟨k', v'⟩ := p
    by_cases h : k' = k
    · simp [lookupJ, lookupSeen, h]
    · simp [lookupJ, lookupSeen, h, ih]

lemma load_save_filterMap (m : SeenMap) :
    (m.map (fun p => (p.1, Json.arr ((pySortedSet p.2).map Json.str)))).filterMap
      (fun p => match p.2 with
        | Json.arr xs => some (p.1, xs.map pyStr)
        | _ => none) = m.map (fun p => (p.1, pySortedSet p.2)) := by
  induction m with
  | nil => rfl
  | cons p rest ih =>
    obtain ⟨k, v⟩ := p
    simp only [List.map_cons, List.filterMap_cons, strMapId, ih]

lemma feedsMapOf_save (m : SeenMap) :
    feedsMapOf (m.map (fun p => (p.1, Json.arr ((pySortedSet p.2).map Json.str)))) =
      some (m.map (fun p => (p.1, pySortedSet p.2))) := by
  induction m with
  | nil => rfl
  | cons p rest ih =>
    obtain ⟨k, v⟩ := p
    simp [feedsMapOf, strListOf, pyIter, strMapId, ih]
    exact List.map_id _

lemma lookupSeen_map_values (g : List String → List String) :
    ∀ (m : SeenMap) (k : String),
      lookupSeen (m.map (fun p => (p.1, g p.2))) k = (lookupSeen m k).map g := by
  intro m k
  induction m with
  | nil => rfl
  | cons p rest ih =>
    obtain ⟨k', v'⟩ := p
    by_cases h : k' = k
    · simp [lookupSeen, h]
    · simp [lookupSeen, h, ih]

lemma load_seen_save_seen (m : SeenMap) :
    load_seen (some (save_seen m)) = m.map (fun p => (p.1, pySortedSet p.2)) := by
  simp only [load_seen, save_seen]
  rw [lookupJ_saveFields]
  cases h : lookupSeen m "feeds" with
  | none => exact load_save_filterMap m
  | some v => exact load_save_filterMap m

/-- C6 counterexample: on the store `{"f1": ["u1"]}`, `news_core.save_seen`
writes the feed-key mapping itself at the top level — the document's only
top-level field is `f1`, and it has no `feeds` field. -/
theorem C6_store_shape_counterexample :
    save_seen [("f1", ["u1"])] = Json.obj [("f1", Json.arr [Json.str "u1"])] ∧
    jsonKeys (save_seen [("f1", ["u1"])]) ≠ ["feeds"] ∧
    lookupJ (objFields (save_seen [("f1", ["u1"])])) "feeds" = none :=
  ⟨rfl, by decide, rfl⟩

/-- C6 amended: `news_push_bot.save_seen` writes a document whose sole
top-level field is the `feeds` mapping, whose value is exactly the
document `news_core.save_seen` writes — the feed-key mapping itself at top
level; in both, every feed key maps to the sorted duplicate-free array of
its seen ids, and both shapes load back to the same store. -/
theorem C6_store_shape :
    (∀ m : SeenMap,
      jsonKeys (save_seen_bot m) = ["feeds"] ∧
      jsonKeys (save_seen m) = m.map Prod.fst ∧
      lookupJ (objFields (save_seen_bot m)) "feeds" = some (save_seen m) ∧
      load_seen (some (save_seen_bot m)) = m.map (fun p => (p.1, pySortedSet p.2)) ∧
      load_seen (some (save_seen m)) = m.map (fun p => (p.1, pySortedSet p.2))) ∧
    (∀ v : List String, List.Sorted StrLe (pySortedSet v) ∧ (pySortedSet v).Nodup ∧
      (∀ x, x ∈ pySortedSet v ↔ x ∈ v)) := by
  refine ⟨fun m => ⟨rfl, ?_, ?_, ?_, load_seen_save_seen m⟩, fun v =>
    ⟨List.sorted_insertionSort StrLe _,
      ((List.perm_insertionSort StrLe _).nodup_iff).mpr (List.nodup_dedup v),
      fun x => mem_pySortedSet⟩⟩
  · rw [save_seen, jsonKeys, List.map_map]
    rfl
  · simp [save_seen_bot, objFields, lookupJ, save_seen]
  · simp [load_seen, save_seen_bot, lookupJ, feedsMapOf_save]

/-- C10: loading immediately after saving (news_core `load_seen` after
`save_seen`) returns the saved mapping with every key's list replaced by
its sorted duplicate-free version, so persistence neither loses a seen id
nor invents one (membership per key is preserved exactly). -/
theorem C10_save_load_round_trip (m : SeenMap) (_hkeys : (m.map Prod.fst).Nodup) :
    load_seen (some (save_seen m)) = m.map (fun p => (p.1, pySortedSet p.2)) ∧
    (∀ k x, x ∈ (lookupSeen (load_seen (some (save_seen m))) k).getD [] ↔
      x ∈ (lookupSeen m k).getD []) := by
  refine ⟨load_seen_save_seen m, fun k x => ?_⟩
  rw [load_seen_save_seen m, lookupSeen_map_values]
  cases h : lookupSeen m k with
  | none => simp
  | some v => simpa using mem_pySortedSet

/-- Witness for C10 at a concrete store with distinct keys and an
unsorted duplicated id list. -/
theorem C10_save_load_round_trip_witness :
    load_seen (some (save_seen [("f1", ["u2", "u1", "u2"]), ("g", ["b", "a"])])) =
      [("f1", ["u1", "u2"]), ("g", ["a", "b"])] ∧
    (("u1" : String) ∈ (lookupSeen (load_seen (some (save_seen
      [("f1", ["u2", "u1", "u2"]), ("g", ["b", "a"])]))) "f1").getD [] ↔
      ("u1" : String) ∈ (lookupSeen [("f1", ["u2", "u1", "u2"]), ("g", ["b", "a"])] "f1").getD []) :=
  ⟨by decide,
    (C10_save_load_round_trip [("f1", ["u2", "u1", "u2"]), ("g", ["b", "a"])] (by decide)).2
      "f1" "u1"⟩

/-! Lemmas about configuration loading, and claim C7. -/

lemma loadLoop_cons (dc : Option String) (e : Json) (rest : List Json) (acc : List Feed) :
    loadLoop dc (e :: rest) acc =
      (match parseEntry dc e with
        | .ok none => loadLoop dc rest acc
        | .ok (some f) => loadLoop dc rest (acc ++ [f])
        | .error _ => acc) := rfl

lemma loadLoop_acc (dc : Option String) :
    ∀ (l : List Json) (acc : List Feed), loadLoop dc l acc = acc ++ loadLoop dc l [] := by
  intro l
  induction l with
  | nil => intro acc; simp [loadLoop]
  | cons e rest ih =>
    intro acc
    rw [loadLoop_cons, loadLoop_cons]
    match h : parseEntry dc e with
    | .ok none =>
      dsimp only
      exact ih acc
    | .ok (some f) =>
      dsimp only
      rw [List.nil_append, ih (acc ++ [f]), ih [f], List.append_assoc]
    | .error u =>
      dsimp only
      simp

lemma loadLoop_abort (dc : Option String) :
    ∀ (pre : List Json) (bad : Json) (post : List Json),
      parseEntry dc bad = .error () →
      loadLoop dc (pre ++ bad :: post) [] = loadLoop dc pre [] := by
  intro pre
  induction pre with
  | nil =>
    intro bad post hbad
    rw [List.nil_append, loadLoop_cons, hbad]
    rfl
  | cons e pre' ih =>
    intro bad post hbad
    rw [List.cons_append, loadLoop_cons, loadLoop_cons]
    match h : parseEntry dc e with
    | .ok none =>
      dsimp only
      exact ih bad post hbad
    | .ok (some f) =>
      dsimp only
      rw [loadLoop_acc dc (pre' ++ bad :: post) ([] ++ [f]),
        loadLoop_acc dc pre' ([] ++ [f]), ih bad post hbad]
    | .error u => rfl

lemma loadLoop_no_error (dc : Option String) :
    ∀ (entries : List Json), (∀ e ∈ entries, parseEntry dc e ≠ .error ()) →
      loadLoop dc entries [] = entries.filterMap (fun e => (parseEntry dc e).toOption.join) := by
  intro entries
  induction entries with
  | nil => intro _; rfl
  | cons e rest ih =>
    intro h
    rw [loadLoop_cons, List.filterMap_cons]
    match he : parseEntry dc e with
    | .ok none =>
      dsimp only
      rw [ih (fun x hx => h x (List.mem_cons_of_mem e hx))]
      rfl
    | .ok (some f) =>
      dsimp only
      rw [loadLoop_acc dc rest ([] ++ [f]), ih (fun x hx => h x (List.mem_cons_of_mem e hx))]
      rfl
    | .error u => exact absurd he (h e (List.mem_cons_self e rest))

/-- C7 counterexample: in a feeds list whose first entry has a `split_len`
value that `int()` cannot convert and whose second entry is well-formed,
the exception aborts the whole load — the well-formed second entry, which
parses to a Feed on its own, produces nothing and the hard-coded defaults
are returned instead. -/
theorem C7_config_skip_counterexample :
    load_config (some "chat") (some (Json.obj [("feeds", Json.arr
      [Json.obj [("url", Json.str "https://good1"), ("split_len", Json.str "x")],
        Json.obj [("url", Json.str "https://good2")]])])) =
      defaultFeeds (some "chat") ∧
    parseEntry (some "chat") (Json.obj [("url", Json.str "https://good2")]) =
      .ok (some
        { key := "https://good2", type := "rss", url := "https://good2",
          chat_id := some "chat", template := none, parse_mode := "HTML",
          resolve := false, fulltext := false, split_len := 3500 }) ∧
    (load_config (some "chat") (some (Json.obj [("feeds", Json.arr
      [Json.obj [("url", Json.str "https://good1"), ("split_len", Json.str "x")],
        Json.obj [("url", Json.str "https://good2")]])]))).all
      (fun f => decide (f.url ≠ "https://good2")) = true :=
  ⟨rfl, rfl, rfl⟩

/-- C7 amended: a non-mapping entry is skipped individually (`ok none`),
and when no entry raises, the load processes every entry and keeps exactly
the parsed ones; an entry lacking a url (whose `split_len` converts) is
likewise skipped individually; but an entry whose `split_len` value cannot
be `int()`-converted raises, the exception is caught around the whole
loop, and every entry after it — well-formed or not — is dropped. -/
theorem C7_config_skip :
    (∀ (dc : Option String) (ent : Json),
      (∀ fs, ent ≠ Json.obj fs) → parseEntry dc ent = .ok none) ∧
    (∀ (dc : Option String) (entries : List Json),
      (∀ e ∈ entries, parseEntry dc e ≠ .error ()) →
      loadLoop dc entries [] =
        entries.filterMap (fun e => (parseEntry dc e).toOption.join)) ∧
    (∀ (dc : Option String) (pre : List Json) (bad : Json) (post : List Json),
      parseEntry dc bad = .error () →
      loadLoop dc (pre ++ bad :: post) [] = loadLoop dc pre []) ∧
    (∀ (dc : Option String) (fields : List (String × Json)),
      pyStripS (pyStr (pyOr (jGet fields "url") (Json.str ""))) = "" →
      ∀ n, pyIntConv (pyOr (jGet fields "split_len") (Json.num 3500)) = .ok n →
        parseEntry dc (Json.obj fields) = .ok none) := by
  refine ⟨fun dc ent h => ?_, fun dc entries h => loadLoop_no_error dc entries h,
    fun dc pre bad post h => loadLoop_abort dc pre bad post h,
    fun dc fields hurl n hint => ?_⟩
  · match ent with
    | Json.null => rfl
    | Json.bool _ => rfl
    | Json.num _ => rfl
    | Json.str _ => rfl
    | Json.arr _ => rfl
    | Json.obj fs => exact absurd rfl (h fs)
  · simp only [parseEntry, hint, hurl]
    rfl

/-- Witness for C7 amended at concrete configuration entries: a bare
string entry is skipped; a single well-formed entry survives the loop; an
entry with `split_len = "x"` placed between two well-formed entries drops
everything after itself; an entry with no url is skipped. -/
theorem C7_config_skip_witness :
    parseEntry (some "chat") (Json.str "junk") = .ok none ∧
    loadLoop (some "chat") [Json.obj [("url", Json.str "https://good2")]] [] =
      [Json.obj [("url", Json.str "https://good2")]].filterMap
        (fun e => (parseEntry (some "chat") e).toOption.join) ∧
    loadLoop (some "chat")
      ([Json.obj [("url", Json.str "https://good2")]] ++
        Json.obj [("url", Json.str "https://good1"), ("split_len", Json.str "x")] ::
          [Json.obj [("url", Json.str "https://good3")]]) [] =
      loadLoop (some "chat") [Json.obj [("url", Json.str "https://good2")]] [] ∧
    parseEntry (some "chat") (Json.obj [("chat_id", Json.str "c2")]) = .ok none :=
  ⟨C7_config_skip.1 (some "chat") (Json.str "junk") (fun _ h => Json.noConfusion h),
    C7_config_skip.2.1 (some "chat") [Json.obj [("url", Json.str "https://good2")]]
      (fun e he => by
        rw [List.mem_singleton] at he
        subst he
        exact fun h => Except.noConfusion h),
    C7_config_skip.2.2.1 (some "chat") [Json.obj [("url", Json.str "https://good2")]]
      (Json.obj [("url", Json.str "https://good1"), ("split_len", Json.str "x")])
      [Json.obj [("url", Json.str "https://good3")]] rfl,
    C7_config_skip.2.2.2 (some "chat") [("chat_id", Json.str "c2")] rfl 3500 rfl⟩

/-! Lemmas about the poll loops, and claim C8. -/

/-- C8 counterexample: in `news_core.main_loop`, which has no `try` around
the pass, a pass that raises does not transition RUNNING → SLEEPING — the
error propagates, the loop never sleeps and runs no further iteration:
after two scheduled iterations with failing passes the trace is a single
RUNNING phase and the loop has terminated by exception. -/
theorem C8_loop_counterexample :
    coreLoopTrace (fun _ => .error ()) 2 = ([LoopPhase.running], true) ∧
    (coreLoopTrace (fun _ => .error ()) 2).1 ≠
      [LoopPhase.running, LoopPhase.sleeping, LoopPhase.running, LoopPhase.sleeping] :=
  ⟨rfl, by decide⟩

/-- C8 amended: `news_push_bot.main_loop` transitions RUNNING → SLEEPING
unconditionally — its trace after `n` iterations is exactly `n` copies of
RUNNING, SLEEPING whatever the pass outcomes, with no terminal state;
`news_core.main_loop` does the same only as long as every pass completes
without raising. -/
theorem C8_loop_transitions :
    (∀ (passes : Nat → Except Unit Unit) (n : Nat),
      botLoopTrace passes n =
        (List.replicate n [LoopPhase.running, LoopPhase.sleeping]).flatten ∧
      (botLoopTrace passes n).length = 2 * n) ∧
    (∀ (passes : Nat → Except Unit Unit) (n : Nat),
      (∀ i, passes i = .ok ()) →
      coreLoopTrace passes n =
        ((List.replicate n [LoopPhase.running, LoopPhase.sleeping]).flatten, false)) := by
  constructor
  · intro passes n
    induction n with
    | zero => exact ⟨rfl, rfl⟩
    | succ m ih =>
      have hiter : botIter (passes m) = [LoopPhase.running, LoopPhase.sleeping] := by
        cases passes m <;> rfl
      constructor
      · rw [botLoopTrace, hiter, ih.1, List.replicate_succ', List.flatten_append]
        rfl
      · rw [botLoopTrace, hiter, List.length_append, ih.2]
        simp
        omega
  · intro passes n h
    induction n with
    | zero => rfl
    | succ m ih =>
      rw [coreLoopTrace, ih, h m, List.replicate_succ', List.flatten_append]
      rfl

/-- Witness for C8 amended: with always-succeeding passes,
`news_core.main_loop` alternates RUNNING, SLEEPING for two iterations
without terminating. -/
theorem C8_loop_transitions_witness :
    coreLoopTrace (fun _ => .ok ()) 2 =
      ((List.replicate 2 [LoopPhase.running, LoopPhase.sleeping]).flatten, false) :=
  C8_loop_transitions.2 (fun _ => .ok ()) 2 (fun _ => rfl)

/-! Lemmas about the listing-page exclusions, and claim C9. -/

/-- C9 counterexample: a listing entry whose title is the localized
(Burmese) live-broadcast wording, with a valid title and link, no `/live/`
link segment and no first-promo marker, is NOT excluded by
`news_core.fetch_list` — its `LIVE_PAT` covers only the English `live` —
while the `news_push_bot` pattern does match that title. -/
theorem C9_live_counterexample :
    hasLiveWord "တိုက်ရိုက်ထုတ်လွှင့်မှု".data = false ∧
    botLivePat "တိုက်ရိုက်ထုတ်လွှင့်မှု".data = true ∧
    processLi ⟨true, "တိုက်ရိုက်ထုတ်လွှင့်မှု",
        "https://www.bbc.com/burmese/articles/x1", "", "", false⟩ =
      some ⟨"https://www.bbc.com/burmese/articles/x1", "တိုက်ရိုက်ထုတ်လွှင့်မှု",
        "https://www.bbc.com/burmese/articles/x1", "", ""⟩ :=
  ⟨by decide, by decide, by decide⟩

/-- C9 amended: the listing-page adapter excludes every entry — even one
with a valid title and link — whose title matches `LIVE_PAT` (in
news_core the case-insensitive English `\blive\b` only; the localized
spelling is matched only by the news_push_bot pattern variant), or whose
lowercased link contains `/live/`, or which carries the first-promo
marker; the English spelling is matched case-insensitively. -/
theorem C9_live_exclusion :
    (∀ e : LiEntry, e.hasH3 = true → e.title ≠ "" → e.link ≠ "" →
      (hasLiveWord e.title.data = true ∨
        containsSub "/live/".data (lowerAscii e.link.data) = true ∨
        e.firstPromo = true) →
      processLi e = none) ∧
    hasLiveWord "Watch LIVE now".data = true ∧
    hasLiveWord "Live: latest updates".data = true ∧
    hasLiveWord "Delivery delayed".data = false ∧
    containsSub "/live/".data (lowerAscii "https://www.bbc.com/burmese/LIVE/x".data) = true := by
  refine ⟨fun e h3 ht hl hcond => ?_, by decide, by decide, by decide, by decide⟩
  have hb : (containsSub "/live/".data (lowerAscii e.link.data) || hasLiveWord e.title.data
      || e.firstPromo) = true := by
    rcases hcond with h | h | h <;> simp [h]
  simp [processLi, h3, ht, hl, hb]

/-- Witness for C9 amended: an entry titled with the English word `Live`,
valid title and link, is excluded. -/
theorem C9_live_exclusion_witness :
    processLi ⟨true, "Watch Live now", "https://www.bbc.com/burmese/articles/x2",
      "", "", false⟩ = none :=
  C9_live_exclusion.1
    ⟨true, "Watch Live now", "https://www.bbc.com/burmese/articles/x2", "", "", false⟩
    rfl (by decide) (by decide) (Or.inl (by decide))

end NewsBot
